import Mathlib

/-!
Shallow embedding of the lakeFS `db` package (src/db/database.go) and of the
transaction retry executor `Transact`, together with theorems checking the
natural-language specification against it.

Errors are modelled by an explicit datatype: `conflict c` stands for a driver
error classified as a serialization/deadlock conflict, `other c` for any other
driver or user error, and `sentinel` for the `ErrSerialization` value of the
package.  The behaviour of the database driver and of the caller-supplied
function `fn` on each attempt is a value of `AttemptBehavior`; a `World` maps
the attempt index to that behaviour.  `Transact` is then a pure function from
a world and the retry parameters to a result together with a trace of the
observable events (begin / rollback / commit calls and sleeps), following the
Go source line by line.
-/

namespace Db

/-- Errors visible to the executor.  The constructor `conflict` is any driver
error that the classifier recognises as a serialization failure or deadlock;
`other` is any error it does not recognise; `sentinel` is the
`ErrSerialization` value of the package. -/
inductive DBError where
  | conflict (code : Nat)
  | other (code : Nat)
  | sentinel
deriving DecidableEq, Repr

/-- The `ErrSerialization` sentinel of the source (declared in the package
next to `Transact`): a dedicated error value distinct from any driver
error. -/
def ErrSerialization : DBError := DBError.sentinel

/-- Modelled from the spec: `IsSerializationError` (declared in the package
next to `Transact`, not among the given sources) recognises exactly the
driver conditions for serialization failure and deadlock; the
`ErrSerialization` sentinel is distinct from any driver error, so it is not
recognised. -/
def IsSerializationError : DBError → Bool
  | DBError.conflict _ => true
  | _ => false

/-- Observable events of one `Transact` call: a call to `BeginTxx` that
succeeds, a call to `BeginTxx` that fails, a call to `tx.Rollback`, a call to
`tx.Commit`, and a sleep of the given duration. -/
inductive Event where
  | beginOk
  | beginFail
  | rollbackEvt
  | commitEvt
  | sleep (d : Nat)
deriving DecidableEq, Repr

/-- Behaviour of the driver and of the caller-supplied function on one
attempt: whether `BeginTxx` fails, what `fn` returns, whether `Rollback`
fails (consulted only when `fn` failed), whether `Commit` fails (consulted
only when `fn` succeeded). -/
structure AttemptBehavior (α : Type) where
  beginErr : Option DBError
  fnRes : Except DBError α
  rollbackErr : Option DBError
  commitErr : Option DBError

/-- A world assigns to every attempt index the behaviour of that attempt. -/
abbrev World (α : Type) := Nat → AttemptBehavior α

/-- The value of one `Transact` call: the trace of observable events, the
returned result (`ret`) and the returned error (`err`).  In the Go source the
pair `(interface\x7b\x7d, error)` is `(some v, none)` on success and
`(none, some e)` on every error path. -/
structure TransactResult (α : Type) where
  trace : List Event
  ret : Option α
  err : Option DBError
deriving DecidableEq, Repr

/-- The events emitted at the top of a loop iteration: for `attempt > 0` the
source sleeps `time.Duration(int(SerializationRetryStartInterval) * attempt)`,
that is, the backoff unit times the attempt index; attempt 0 does not
sleep. -/
def preEvents (backoffUnit attempt : Nat) : List Event :=
  if 0 < attempt then [Event.sleep (backoffUnit * attempt)] else []

/-- The retry loop of `Transact` (src/db/database.go lines 136-181).  Here
`fuel` counts the remaining attempts, `maxAttempts - attempt`; the source
loops `for attempt < SerializationRetryMaxAttempts`, that is, while
`fuel > 0`, and the two counters stay synchronised because both change only
at `continue`.  Each iteration: optional sleep, `BeginTxx` (fatal on
failure), run `fn`; on `fn` failure roll back (a rollback failure is fatal),
then retry on a classified conflict and otherwise return the error of `fn`;
on `fn` success commit, retrying on a classified-conflict commit error,
failing on any other commit error and returning the result on success.  When
the loop exhausts its attempts it returns the `ErrSerialization` sentinel. -/
def transactLoop {α : Type} (world : World α) (backoffUnit : Nat) :
    Nat → Nat → TransactResult α
  | 0, _ => ⟨[], none, some ErrSerialization⟩
  | fuel + 1, attempt =>
    let pre := preEvents backoffUnit attempt
    match (world attempt).beginErr with
    | some e => ⟨pre ++ [Event.beginFail], none, some e⟩
    | none =>
      match (world attempt).fnRes with
      | Except.error fnErr =>
        match (world attempt).rollbackErr with
        | some rollbackErr =>
          ⟨pre ++ [Event.beginOk, Event.rollbackEvt], none, some rollbackErr⟩
        | none =>
          if IsSerializationError fnErr then
            let rest := transactLoop world backoffUnit fuel (attempt + 1)
            ⟨pre ++ [Event.beginOk, Event.rollbackEvt] ++ rest.trace,
              rest.ret, rest.err⟩
          else
            ⟨pre ++ [Event.beginOk, Event.rollbackEvt], none, some fnErr⟩
      | Except.ok v =>
        match (world attempt).commitErr with
        | some commitErr =>
          if IsSerializationError commitErr then
            let rest := transactLoop world backoffUnit fuel (attempt + 1)
            ⟨pre ++ [Event.beginOk, Event.commitEvt] ++ rest.trace,
              rest.ret, rest.err⟩
          else
            ⟨pre ++ [Event.beginOk, Event.commitEvt], none, some commitErr⟩
        | none => ⟨pre ++ [Event.beginOk, Event.commitEvt], some v, none⟩

/-- The function `Transact` (src/db/database.go lines 129-188), with the
process-wide constants `SerializationRetryStartInterval` and
`SerializationRetryMaxAttempts` made explicit parameters (the RetryPolicy of
the spec): the loop starts at attempt 0 with the full budget. -/
def Transact {α : Type} (world : World α) (backoffUnit maxAttempts : Nat) :
    TransactResult α :=
  transactLoop world backoffUnit maxAttempts 0

/-- Number of occurrences of an event in a trace. -/
def countE : List Event → Event → Nat
  | [], _ => 0
  | x :: rest, e => (if x = e then 1 else 0) + countE rest e

/-- The durations of the sleep events of a trace, in order. -/
def sleepsOf : List Event → List Nat
  | [] => []
  | Event.sleep d :: rest => d :: sleepsOf rest
  | _ :: rest => sleepsOf rest

/-- The behaviour of an attempt that makes the loop retry via the
`fn`-failure branch: begin succeeds, `fn` fails with an error the classifier
recognises, and the rollback succeeds. -/
def ConflictRetry {α : Type} (b : AttemptBehavior α) : Prop :=
  b.beginErr = none
    ∧ (∃ e, b.fnRes = Except.error e ∧ IsSerializationError e = true)
    ∧ b.rollbackErr = none

/-- The behaviour of an attempt that makes the loop retry via the commit
branch: begin succeeds, `fn` succeeds, and the commit fails with an error the
classifier recognises. -/
def CommitRetry {α : Type} (b : AttemptBehavior α) : Prop :=
  b.beginErr = none
    ∧ (∃ v, b.fnRes = Except.ok v)
    ∧ ∃ e, b.commitErr = some e ∧ IsSerializationError e = true

/-- An attempt after which the loop continues with the next attempt. -/
def Retries {α : Type} (b : AttemptBehavior α) : Prop :=
  ConflictRetry b ∨ CommitRetry b

/-- An attempt none of whose outcomes is the `ErrSerialization` value
itself. -/
def SentinelFree {α : Type} (b : AttemptBehavior α) : Prop :=
  b.beginErr ≠ some ErrSerialization
    ∧ b.fnRes ≠ Except.error ErrSerialization
    ∧ b.rollbackErr ≠ some ErrSerialization
    ∧ b.commitErr ≠ some ErrSerialization

/-- A world where every attempt hits a classified serialization conflict in
`fn` and begin/rollback succeed. -/
def conflictWorld : World Nat :=
  fun _ => ⟨none, Except.error (DBError.conflict 0), none, none⟩

/-- A world with classified conflicts on attempts 0 and 1 and success (value
42, commit ok) on attempt 2. -/
def succeedAt3World : World Nat :=
  fun i =>
    if i < 2 then ⟨none, Except.error (DBError.conflict 0), none, none⟩
    else ⟨none, Except.ok 42, none, none⟩

/-- A world with a classified conflict on attempt 0 and, on attempt 1, an
`fn` failure whose rollback also fails. -/
def rollbackFailWorld : World Nat :=
  fun i =>
    if i < 1 then ⟨none, Except.error (DBError.conflict 0), none, none⟩
    else ⟨none, Except.error (DBError.other 5), some (DBError.other 9), none⟩

/-- A world whose first begin fails. -/
def beginFailWorld : World Nat :=
  fun _ => ⟨some (DBError.other 3), Except.error (DBError.other 0), none, none⟩

/-- A world where `fn` always fails with an unclassified error. -/
def fnOtherWorld : World Nat :=
  fun _ => ⟨none, Except.error (DBError.other 7), none, none⟩

/-- A world where `fn` succeeds but the commit always fails with an
unclassified error. -/
def commitOtherWorld : World Nat :=
  fun _ => ⟨none, Except.ok 1, none, some (DBError.other 8)⟩

/-- A world where `fn` always fails with the `ErrSerialization` value itself
(which the classifier does not recognise). -/
def sentinelWorld : World Nat :=
  fun _ => ⟨none, Except.error DBError.sentinel, none, none⟩

/-- A context token (`context.Context`): the ambient background context or a
distinguishable caller-supplied context. -/
inductive Ctx where
  | background
  | token (id : Nat)
deriving DecidableEq, Repr

/-- A `logging.Logger` value, by construction: the process default logger,
the silent dummy logger, or a logger derived from another one for a
context. -/
inductive Logger where
  | default
  | dummy
  | withContext (parent : Logger) (ctx : Ctx)
deriving DecidableEq, Repr

/-- The structure `QueryOptions` (src/db/database.go lines 31-34). -/
structure QueryOptions where
  logger : Logger
  ctx : Ctx
deriving DecidableEq, Repr

/-- The structure `SqlxDatabase` (src/db/database.go lines 36-39): the
connection pool is modelled by an identifying handle. -/
structure SqlxDatabase where
  db : Nat
  queryOptions : Option QueryOptions
deriving DecidableEq, Repr

/-- The constructor `NewSqlxDatabase` (src/db/database.go lines 41-43): no
query options. -/
def NewSqlxDatabase (db : Nat) : SqlxDatabase := ⟨db, none⟩

/-- The method `getLogger` (src/db/database.go lines 45-50). -/
def getLogger (d : SqlxDatabase) : Logger :=
  match d.queryOptions with
  | some q => q.logger
  | none => Logger.default

/-- The method `getContext` (src/db/database.go lines 52-57). -/
def getContext (d : SqlxDatabase) : Ctx :=
  match d.queryOptions with
  | some q => q.ctx
  | none => Ctx.background

/-- The method `WithContext` (src/db/database.go lines 59-67): a new facade
value with the same pool handle and fresh query options holding
`logging.Default().WithContext(ctx)` and the given context. -/
def WithContext (d : SqlxDatabase) (ctx : Ctx) : SqlxDatabase :=
  ⟨d.db, some ⟨Logger.withContext Logger.default ctx, ctx⟩⟩

/-- Isolation levels relevant to the model. -/
inductive IsolationLevel where
  | serializable
  | level (n : Nat)
deriving DecidableEq, Repr

/-- The structure `TxOptions` of the package (declared in tx.go, next to
`Transact`). -/
structure TxOptions where
  logger : Logger
  ctx : Ctx
  isolationLevel : IsolationLevel
  readOnly : Bool
deriving DecidableEq, Repr

/-- Modelled from the spec: `DefaultTxOptions` (declared in tx.go, which is
not among the given sources); the defaults are serializable isolation,
read-write, the default logger and the background context. -/
def DefaultTxOptions : TxOptions :=
  ⟨Logger.default, Ctx.background, IsolationLevel.serializable, false⟩

/-- The method `getTxOptions` (src/db/database.go lines 120-127): defaults,
with logger and context overridden from the query options of the facade when
present. -/
def getTxOptions (d : SqlxDatabase) : TxOptions :=
  let options := DefaultTxOptions
  match d.queryOptions with
  | some q => { options with logger := q.logger, ctx := q.ctx }
  | none => options

/-- One row of the `pg_settings` introspection query. -/
structure PgSetting where
  name : String
  setting : String
deriving DecidableEq, Repr

/-- The Go function `strconv.FormatBool`. -/
def formatBool (b : Bool) : String := if b then ("true") else ("false")

/-- The Go function `strings.HasPrefix`, on the character data of the
strings. -/
def hasPrefixGo (s p : String) : Bool := p.data.isPrefixOf s.data

/-- Assignment `m[k] = v` on a Go map modelled as an association list with
unique keys: overwrite the binding if the key is present, append
otherwise. -/
def mapInsert : List (String × String) → String → String → List (String × String)
  | [], k, v => [(k, v)]
  | p :: rest, k, v =>
    if p.1 = k then (k, v) :: rest else p :: mapInsert rest k v

/-- Lookup on the association-list model of a Go map. -/
def mapGet : List (String × String) → String → Option String
  | [], _ => none
  | p :: rest, k => if p.1 = k then some p.2 else mapGet rest k

/-- The body of the transactional function of `Metadata`
(src/db/database.go lines 215-224): build the settings map, turning the
`data_directory` row into an `is_rds` flag. -/
def processPgSettings (pgs : List PgSetting) : List (String × String) :=
  pgs.foldl
    (fun settings setting =>
      if setting.name = ("data_directory") then
        mapInsert settings ("is_rds")
          (formatBool (hasPrefixGo setting.setting ("/rdsdata")))
      else
        mapInsert settings setting.name setting.setting)
    []

/-- The method `getVersion` (src/db/database.go lines 237-253), with the
result of the underlying `SELECT version()` made an explicit parameter `q`:
the query runs through `Transact`; a transaction error is returned as is,
otherwise the transacted value is returned. -/
def getVersion (q : Except DBError String) (backoffUnit maxAttempts : Nat) :
    Except DBError String :=
  match (Transact (fun _ => ⟨none, q, none, none⟩) backoffUnit maxAttempts).err with
  | some e => Except.error e
  | none =>
    Except.ok
      ((Transact (fun _ => ⟨none, q, none, none⟩) backoffUnit maxAttempts).ret.getD (""))

/-- The method `getAuroraVersion` (src/db/database.go lines 255-268), with
the result of the underlying `SELECT aurora_version()` made an explicit
parameter. -/
def getAuroraVersion (q : Except DBError String) (backoffUnit maxAttempts : Nat) :
    Except DBError String :=
  match (Transact (fun _ => ⟨none, q, none, none⟩) backoffUnit maxAttempts).err with
  | some e => Except.error e
  | none =>
    Except.ok
      ((Transact (fun _ => ⟨none, q, none, none⟩) backoffUnit maxAttempts).ret.getD (""))

/-- The method `Metadata` (src/db/database.go lines 190-235), with the
results of the three underlying read-only queries made explicit parameters
(`qv` for `SELECT version()`, `qa` for `SELECT aurora_version()`, `qs` for
the `pg_settings` select): each successful sub-query contributes its entries
to the map; a failed sub-query is skipped; the settings obtained through
`Transact` are merged under the `postgresql_setting_` key prefix; the error
component of the result is always nil. -/
def Metadata (qv qa : Except DBError String)
    (qs : Except DBError (List PgSetting)) (backoffUnit maxAttempts : Nat) :
    List (String × String) × Option DBError :=
  let metadata₀ : List (String × String) := []
  let metadata₁ :=
    match getVersion qv backoffUnit maxAttempts with
    | Except.ok version => mapInsert metadata₀ ("postgresql_version") version
    | Except.error _ => metadata₀
  let metadata₂ :=
    match getAuroraVersion qa backoffUnit maxAttempts with
    | Except.ok auroraVersion =>
      mapInsert metadata₁ ("postgresql_aurora_version") auroraVersion
    | Except.error _ => metadata₁
  let m := Transact (fun _ => ⟨none, Except.map processPgSettings qs, none, none⟩)
    backoffUnit maxAttempts
  match m.err with
  | some _ => (metadata₂, none)
  | none =>
    ((m.ret.getD []).foldl
      (fun md p => mapInsert md (("postgresql_setting_") ++ p.1) p.2) metadata₂,
      none)

@[simp] lemma countE_nil (e : Event) : countE [] e = 0 := rfl

@[simp] lemma countE_cons (x : Event) (t : List Event) (e : Event) :
    countE (x :: t) e = (if x = e then 1 else 0) + countE t e := rfl

@[simp] lemma countE_append (t₁ t₂ : List Event) (e : Event) :
    countE (t₁ ++ t₂) e = countE t₁ e + countE t₂ e := by
  induction t₁ with
  | nil => simp
  | cons x t ih => simp [ih]; ring

@[simp] lemma sleepsOf_nil : sleepsOf [] = [] := rfl

@[simp] lemma sleepsOf_sleep_cons (d : Nat) (t : List Event) :
    sleepsOf (Event.sleep d :: t) = d :: sleepsOf t := rfl

@[simp] lemma sleepsOf_beginOk_cons (t : List Event) :
    sleepsOf (Event.beginOk :: t) = sleepsOf t := rfl

@[simp] lemma sleepsOf_beginFail_cons (t : List Event) :
    sleepsOf (Event.beginFail :: t) = sleepsOf t := rfl

@[simp] lemma sleepsOf_rollback_cons (t : List Event) :
    sleepsOf (Event.rollbackEvt :: t) = sleepsOf t := rfl

@[simp] lemma sleepsOf_commit_cons (t : List Event) :
    sleepsOf (Event.commitEvt :: t) = sleepsOf t := rfl

@[simp] lemma sleepsOf_append (t₁ t₂ : List Event) :
    sleepsOf (t₁ ++ t₂) = sleepsOf t₁ ++ sleepsOf t₂ := by
  induction t₁ with
  | nil => simp
  | cons x t ih => cases x <;> simp [ih]

section StepLemmas

variable {α : Type} (world : World α) (backoffUnit fuel attempt : Nat)

lemma transactLoop_zero :
    transactLoop world backoffUnit 0 attempt = ⟨[], none, some ErrSerialization⟩ :=
  rfl

lemma transactLoop_beginFail {e : DBError}
    (hb : (world attempt).beginErr = some e) :
    transactLoop world backoffUnit (fuel + 1) attempt
      = ⟨preEvents backoffUnit attempt ++ [Event.beginFail], none, some e⟩ := by
  simp [transactLoop, hb]

lemma transactLoop_rollbackFail {fnErr re : DBError}
    (hb : (world attempt).beginErr = none)
    (hf : (world attempt).fnRes = Except.error fnErr)
    (hr : (world attempt).rollbackErr = some re) :
    transactLoop world backoffUnit (fuel + 1) attempt
      = ⟨preEvents backoffUnit attempt ++ [Event.beginOk, Event.rollbackEvt],
          none, some re⟩ := by
  simp [transactLoop, hb, hf, hr]

lemma transactLoop_fnConflict {fnErr : DBError}
    (hb : (world attempt).beginErr = none)
    (hf : (world attempt).fnRes = Except.error fnErr)
    (hr : (world attempt).rollbackErr = none)
    (hs : IsSerializationError fnErr = true) :
    transactLoop world backoffUnit (fuel + 1) attempt
      = ⟨preEvents backoffUnit attempt ++ [Event.beginOk, Event.rollbackEvt]
            ++ (transactLoop world backoffUnit fuel (attempt + 1)).trace,
          (transactLoop world backoffUnit fuel (attempt + 1)).ret,
          (transactLoop world backoffUnit fuel (attempt + 1)).err⟩ := by
  simp [transactLoop, hb, hf, hr, hs]

lemma transactLoop_fnOther {fnErr : DBError}
    (hb : (world attempt).beginErr = none)
    (hf : (world attempt).fnRes = Except.error fnErr)
    (hr : (world attempt).rollbackErr = none)
    (hs : IsSerializationError fnErr = false) :
    transactLoop world backoffUnit (fuel + 1) attempt
      = ⟨preEvents backoffUnit attempt ++ [Event.beginOk, Event.rollbackEvt],
          none, some fnErr⟩ := by
  simp [transactLoop, hb, hf, hr, hs]

lemma transactLoop_commitConflict {v : α} {ce : DBError}
    (hb : (world attempt).beginErr = none)
    (hf : (world attempt).fnRes = Except.ok v)
    (hc : (world attempt).commitErr = some ce)
    (hs : IsSerializationError ce = true) :
    transactLoop world backoffUnit (fuel + 1) attempt
      = ⟨preEvents backoffUnit attempt ++ [Event.beginOk, Event.commitEvt]
            ++ (transactLoop world backoffUnit fuel (attempt + 1)).trace,
          (transactLoop world backoffUnit fuel (attempt + 1)).ret,
          (transactLoop world backoffUnit fuel (attempt + 1)).err⟩ := by
  simp [transactLoop, hb, hf, hc, hs]

lemma transactLoop_commitOther {v : α} {ce : DBError}
    (hb : (world attempt).beginErr = none)
    (hf : (world attempt).fnRes = Except.ok v)
    (hc : (world attempt).commitErr = some ce)
    (hs : IsSerializationError ce = false) :
    transactLoop world backoffUnit (fuel + 1) attempt
      = ⟨preEvents backoffUnit attempt ++ [Event.beginOk, Event.commitEvt],
          none, some ce⟩ := by
  simp [transactLoop, hb, hf, hc, hs]

lemma transactLoop_commitOk {v : α}
    (hb : (world attempt).beginErr = none)
    (hf : (world attempt).fnRes = Except.ok v)
    (hc : (world attempt).commitErr = none) :
    transactLoop world backoffUnit (fuel + 1) attempt
      = ⟨preEvents backoffUnit attempt ++ [Event.beginOk, Event.commitEvt],
          some v, none⟩ := by
  simp [transactLoop, hb, hf, hc]

end StepLemmas

@[simp] lemma countE_preEvents_beginOk (bu a : Nat) :
    countE (preEvents bu a) Event.beginOk = 0 := by
  unfold preEvents; split <;> rfl

@[simp] lemma countE_preEvents_beginFail (bu a : Nat) :
    countE (preEvents bu a) Event.beginFail = 0 := by
  unfold preEvents; split <;> rfl

@[simp] lemma countE_preEvents_rollback (bu a : Nat) :
    countE (preEvents bu a) Event.rollbackEvt = 0 := by
  unfold preEvents; split <;> rfl

@[simp] lemma countE_preEvents_commit (bu a : Nat) :
    countE (preEvents bu a) Event.commitEvt = 0 := by
  unfold preEvents; split <;> rfl

@[simp] lemma preEvents_zero (bu : Nat) : preEvents bu 0 = [] := rfl

lemma sleepsOf_preEvents_pos (bu a : Nat) (h : 0 < a) :
    sleepsOf (preEvents bu a) = [bu * a] := by
  simp [preEvents, h]

lemma transactLoop_dichotomy {α : Type} (world : World α) (bu : Nat) :
    ∀ fuel attempt,
      ((∃ v, (transactLoop world bu fuel attempt).ret = some v) ∧
          (transactLoop world bu fuel attempt).err = none ∧
          (transactLoop world bu fuel attempt).trace.getLast? = some Event.commitEvt)
        ∨ ((transactLoop world bu fuel attempt).ret = none ∧
            ∃ e, (transactLoop world bu fuel attempt).err = some e) := by
  intro fuel
  induction fuel with
  | zero =>
    intro a
    exact Or.inr ⟨rfl, ErrSerialization, rfl⟩
  | succ fuel ih =>
    intro a
    rcases hb : (world a).beginErr with _ | e
    · rcases hf : (world a).fnRes with fnErr | v
      · rcases hr : (world a).rollbackErr with _ | re
        · cases hs : IsSerializationError fnErr
          · rw [transactLoop_fnOther world bu fuel a hb hf hr hs]
            exact Or.inr ⟨rfl, fnErr, rfl⟩
          · rw [transactLoop_fnConflict world bu fuel a hb hf hr hs]
            rcases ih (a + 1) with ⟨⟨v, hv⟩, he, hl⟩ | ⟨hv, e, he⟩
            · refine Or.inl ⟨⟨v, hv⟩, he, ?_⟩
              rw [List.getLast?_append, hl]; rfl
            · exact Or.inr ⟨hv, e, he⟩
        · rw [transactLoop_rollbackFail world bu fuel a hb hf hr]
          exact Or.inr ⟨rfl, re, rfl⟩
      · rcases hc : (world a).commitErr with _ | ce
        · rw [transactLoop_commitOk world bu fuel a hb hf hc]
          refine Or.inl ⟨⟨v, rfl⟩, rfl, ?_⟩
          simp only [List.getLast?_append]
          rfl
        · cases hs : IsSerializationError ce
          · rw [transactLoop_commitOther world bu fuel a hb hf hc hs]
            exact Or.inr ⟨rfl, ce, rfl⟩
          · rw [transactLoop_commitConflict world bu fuel a hb hf hc hs]
            rcases ih (a + 1) with ⟨⟨v', hv⟩, he, hl⟩ | ⟨hv, e, he⟩
            · refine Or.inl ⟨⟨v', hv⟩, he, ?_⟩
              rw [List.getLast?_append, hl]; rfl
            · exact Or.inr ⟨hv, e, he⟩
    · rw [transactLoop_beginFail world bu fuel a hb]
      exact Or.inr ⟨rfl, e, rfl⟩

lemma transactLoop_attempts_le {α : Type} (world : World α) (bu : Nat) :
    ∀ fuel attempt,
      countE (transactLoop world bu fuel attempt).trace Event.beginOk
        + countE (transactLoop world bu fuel attempt).trace Event.beginFail ≤ fuel := by
  intro fuel
  induction fuel with
  | zero => intro a; simp [transactLoop_zero]
  | succ fuel ih =>
    intro a
    rcases hb : (world a).beginErr with _ | e
    · rcases hf : (world a).fnRes with fnErr | v
      · rcases hr : (world a).rollbackErr with _ | re
        · cases hs : IsSerializationError fnErr
          · rw [transactLoop_fnOther world bu fuel a hb hf hr hs]; simp [countE]
          · rw [transactLoop_fnConflict world bu fuel a hb hf hr hs]
            have := ih (a + 1)
            simp [countE] at this ⊢
            omega
        · rw [transactLoop_rollbackFail world bu fuel a hb hf hr]; simp [countE]
      · rcases hc : (world a).commitErr with _ | ce
        · rw [transactLoop_commitOk world bu fuel a hb hf hc]; simp [countE]
        · cases hs : IsSerializationError ce
          · rw [transactLoop_commitOther world bu fuel a hb hf hc hs]; simp [countE]
          · rw [transactLoop_commitConflict world bu fuel a hb hf hc hs]
            have := ih (a + 1)
            simp [countE] at this ⊢
            omega
    · rw [transactLoop_beginFail world bu fuel a hb]; simp [countE]

lemma transactLoop_terminators {α : Type} (world : World α) (bu : Nat) :
    ∀ fuel attempt,
      countE (transactLoop world bu fuel attempt).trace Event.beginOk
        = countE (transactLoop world bu fuel attempt).trace Event.rollbackEvt
          + countE (transactLoop world bu fuel attempt).trace Event.commitEvt := by
  intro fuel
  induction fuel with
  | zero => intro a; simp [transactLoop_zero]
  | succ fuel ih =>
    intro a
    rcases hb : (world a).beginErr with _ | e
    · rcases hf : (world a).fnRes with fnErr | v
      · rcases hr : (world a).rollbackErr with _ | re
        · cases hs : IsSerializationError fnErr
          · rw [transactLoop_fnOther world bu fuel a hb hf hr hs]; simp [countE]
          · rw [transactLoop_fnConflict world bu fuel a hb hf hr hs]
            have := ih (a + 1)
            simp [countE] at this ⊢
            omega
        · rw [transactLoop_rollbackFail world bu fuel a hb hf hr]; simp [countE]
      · rcases hc : (world a).commitErr with _ | ce
        · rw [transactLoop_commitOk world bu fuel a hb hf hc]; simp [countE]
        · cases hs : IsSerializationError ce
          · rw [transactLoop_commitOther world bu fuel a hb hf hc hs]; simp [countE]
          · rw [transactLoop_commitConflict world bu fuel a hb hf hc hs]
            have := ih (a + 1)
            simp [countE] at this ⊢
            omega
    · rw [transactLoop_beginFail world bu fuel a hb]; simp [countE]

lemma transactLoop_sleeps {α : Type} (world : World α) (bu : Nat) :
    ∀ fuel attempt, 0 < attempt →
      sleepsOf (transactLoop world bu fuel attempt).trace
        = (List.range' attempt
            (countE (transactLoop world bu fuel attempt).trace Event.beginOk
              + countE (transactLoop world bu fuel attempt).trace Event.beginFail)).map
            (fun i => bu * i) := by
  intro fuel
  induction fuel with
  | zero => intro a ha; simp [transactLoop_zero, countE]
  | succ fuel ih =>
    intro a ha
    rcases hb : (world a).beginErr with _ | e
    · rcases hf : (world a).fnRes with fnErr | v
      · rcases hr : (world a).rollbackErr with _ | re
        · cases hs : IsSerializationError fnErr
          · rw [transactLoop_fnOther world bu fuel a hb hf hr hs]
            simp [sleepsOf_preEvents_pos bu a ha, countE, List.range'_one]
          · rw [transactLoop_fnConflict world bu fuel a hb hf hr hs]
            have hih := ih (a + 1) (by omega)
            simp [sleepsOf_preEvents_pos bu a ha, countE, hih]
            generalize countE (transactLoop world bu fuel (a + 1)).trace Event.beginOk = k1
            generalize countE (transactLoop world bu fuel (a + 1)).trace Event.beginFail = k2
            have h12 : 1 + k1 + k2 = (k1 + k2) + 1 := by omega
            rw [h12, List.range'_succ]
            simp
        · rw [transactLoop_rollbackFail world bu fuel a hb hf hr]
          simp [sleepsOf_preEvents_pos bu a ha, countE, List.range'_one]
      · rcases hc : (world a).commitErr with _ | ce
        · rw [transactLoop_commitOk world bu fuel a hb hf hc]
          simp [sleepsOf_preEvents_pos bu a ha, countE, List.range'_one]
        · cases hs : IsSerializationError ce
          · rw [transactLoop_commitOther world bu fuel a hb hf hc hs]
            simp [sleepsOf_preEvents_pos bu a ha, countE, List.range'_one]
          · rw [transactLoop_commitConflict world bu fuel a hb hf hc hs]
            have hih := ih (a + 1) (by omega)
            simp [sleepsOf_preEvents_pos bu a ha, countE, hih]
            generalize countE (transactLoop world bu fuel (a + 1)).trace Event.beginOk = k1
            generalize countE (transactLoop world bu fuel (a + 1)).trace Event.beginFail = k2
            have h12 : 1 + k1 + k2 = (k1 + k2) + 1 := by omega
            rw [h12, List.range'_succ]
            simp
    · rw [transactLoop_beginFail world bu fuel a hb]
      simp [sleepsOf_preEvents_pos bu a ha, countE, List.range'_one]

lemma transact_sleeps_eq {α : Type} (world : World α) (bu N : Nat) :
    sleepsOf (Transact world bu N).trace
      = (List.range' 1
          (countE (Transact world bu N).trace Event.beginOk
            + countE (Transact world bu N).trace Event.beginFail - 1)).map
          (fun i => bu * i) := by
  cases N with
  | zero => simp [Transact, transactLoop_zero, countE]
  | succ fuel =>
    rw [Transact]
    rcases hb : (world 0).beginErr with _ | e
    · rcases hf : (world 0).fnRes with fnErr | v
      · rcases hr : (world 0).rollbackErr with _ | re
        · cases hs : IsSerializationError fnErr
          · rw [transactLoop_fnOther world bu fuel 0 hb hf hr hs]
            simp [countE]
          · rw [transactLoop_fnConflict world bu fuel 0 hb hf hr hs]
            have hih := transactLoop_sleeps world bu fuel 1 (by omega)
            simp [countE, hih]
            generalize countE (transactLoop world bu fuel 1).trace Event.beginOk = k1
            generalize countE (transactLoop world bu fuel 1).trace Event.beginFail = k2
            have hk : 1 + k1 + k2 - 1 = k1 + k2 := by omega
            rw [hk]
        · rw [transactLoop_rollbackFail world bu fuel 0 hb hf hr]
          simp [countE]
      · rcases hc : (world 0).commitErr with _ | ce
        · rw [transactLoop_commitOk world bu fuel 0 hb hf hc]
          simp [countE]
        · cases hs : IsSerializationError ce
          · rw [transactLoop_commitOther world bu fuel 0 hb hf hc hs]
            simp [countE]
          · rw [transactLoop_commitConflict world bu fuel 0 hb hf hc hs]
            have hih := transactLoop_sleeps world bu fuel 1 (by omega)
            simp [countE, hih]
            generalize countE (transactLoop world bu fuel 1).trace Event.beginOk = k1
            generalize countE (transactLoop world bu fuel 1).trace Event.beginFail = k2
            have hk : 1 + k1 + k2 - 1 = k1 + k2 := by omega
            rw [hk]
    · rw [transactLoop_beginFail world bu fuel 0 hb]
      simp [countE]

lemma transact_head_begin {α : Type} (world : World α) (bu N : Nat) (hN : 0 < N) :
    (Transact world bu N).trace.head? = some Event.beginOk
      ∨ (Transact world bu N).trace.head? = some Event.beginFail := by
  obtain ⟨fuel, rfl⟩ : ∃ f, N = f + 1 := ⟨N - 1, by omega⟩
  rw [Transact]
  rcases hb : (world 0).beginErr with _ | e
  · rcases hf : (world 0).fnRes with fnErr | v
    · rcases hr : (world 0).rollbackErr with _ | re
      · cases hs : IsSerializationError fnErr
        · rw [transactLoop_fnOther world bu fuel 0 hb hf hr hs]; left; rfl
        · rw [transactLoop_fnConflict world bu fuel 0 hb hf hr hs]; left; rfl
      · rw [transactLoop_rollbackFail world bu fuel 0 hb hf hr]; left; rfl
    · rcases hc : (world 0).commitErr with _ | ce
      · rw [transactLoop_commitOk world bu fuel 0 hb hf hc]; left; rfl
      · cases hs : IsSerializationError ce
        · rw [transactLoop_commitOther world bu fuel 0 hb hf hc hs]; left; rfl
        · rw [transactLoop_commitConflict world bu fuel 0 hb hf hc hs]; left; rfl
  · rw [transactLoop_beginFail world bu fuel 0 hb]; right; rfl

lemma transactLoop_skip {α : Type} (world : World α) (bu : Nat) :
    ∀ j fuel attempt, j ≤ fuel →
      (∀ i, attempt ≤ i → i < attempt + j → Retries (world i)) →
      ∃ t, transactLoop world bu fuel attempt
            = ⟨t ++ (transactLoop world bu (fuel - j) (attempt + j)).trace,
                (transactLoop world bu (fuel - j) (attempt + j)).ret,
                (transactLoop world bu (fuel - j) (attempt + j)).err⟩
          ∧ countE t Event.beginOk = j ∧ countE t Event.beginFail = 0
          ∧ countE t Event.rollbackEvt + countE t Event.commitEvt = j := by
  intro j
  induction j with
  | zero =>
    intro fuel a _ _
    exact ⟨[], by simp, by simp [countE], by simp [countE], by simp [countE]⟩
  | succ j ih =>
    intro fuel a hj hw
    obtain ⟨f, rfl⟩ : ∃ f, fuel = f + 1 := ⟨fuel - 1, by omega⟩
    have e1 : f + 1 - (j + 1) = f - j := by omega
    have e2 : a + (j + 1) = a + 1 + j := by omega
    rw [e1, e2]
    obtain ⟨t, ht, h1, h2, h3⟩ :=
      ih f (a + 1) (by omega) (fun i hi1 hi2 => hw i (by omega) (by omega))
    have hra : Retries (world a) := hw a le_rfl (by omega)
    rcases hra with ⟨hb, ⟨e, hfe, hs⟩, hr⟩ | ⟨hb, ⟨v, hfv⟩, ce, hc, hs⟩
    · rw [transactLoop_fnConflict world bu f a hb hfe hr hs, ht]
      refine ⟨preEvents bu a ++ [Event.beginOk, Event.rollbackEvt] ++ t,
        ?_, ?_, ?_, ?_⟩
      · simp [List.append_assoc]
      · simp [countE, h1]; omega
      · simp [countE, h2]
      · simp [countE, h3]; omega
    · rw [transactLoop_commitConflict world bu f a hb hfv hc hs, ht]
      refine ⟨preEvents bu a ++ [Event.beginOk, Event.commitEvt] ++ t,
        ?_, ?_, ?_, ?_⟩
      · simp [List.append_assoc]
      · simp [countE, h1]; omega
      · simp [countE, h2]
      · simp [countE, h3]; omega

lemma transactLoop_skip_conflict {α : Type} (world : World α) (bu : Nat) :
    ∀ j fuel attempt, j ≤ fuel →
      (∀ i, attempt ≤ i → i < attempt + j → ConflictRetry (world i)) →
      ∃ t, transactLoop world bu fuel attempt
            = ⟨t ++ (transactLoop world bu (fuel - j) (attempt + j)).trace,
                (transactLoop world bu (fuel - j) (attempt + j)).ret,
                (transactLoop world bu (fuel - j) (attempt + j)).err⟩
          ∧ countE t Event.beginOk = j ∧ countE t Event.beginFail = 0
          ∧ countE t Event.rollbackEvt = j ∧ countE t Event.commitEvt = 0 := by
  intro j
  induction j with
  | zero =>
    intro fuel a _ _
    exact ⟨[], by simp, by simp [countE], by simp [countE], by simp [countE],
      by simp [countE]⟩
  | succ j ih =>
    intro fuel a hj hw
    obtain ⟨f, rfl⟩ : ∃ f, fuel = f + 1 := ⟨fuel - 1, by omega⟩
    have e1 : f + 1 - (j + 1) = f - j := by omega
    have e2 : a + (j + 1) = a + 1 + j := by omega
    rw [e1, e2]
    obtain ⟨t, ht, h1, h2, h3, h4⟩ :=
      ih f (a + 1) (by omega) (fun i hi1 hi2 => hw i (by omega) (by omega))
    obtain ⟨hb, ⟨e, hfe, hs⟩, hr⟩ := hw a le_rfl (by omega)
    rw [transactLoop_fnConflict world bu f a hb hfe hr hs, ht]
    refine ⟨preEvents bu a ++ [Event.beginOk, Event.rollbackEvt] ++ t,
      ?_, ?_, ?_, ?_, ?_⟩
    · simp [List.append_assoc]
    · simp [countE, h1]; omega
    · simp [countE, h2]
    · simp [countE, h3]; omega
    · simp [countE, h4]

lemma transactLoop_sentinel_retries {α : Type} (world : World α) (bu : Nat) :
    ∀ fuel attempt,
      (∀ i, attempt ≤ i → i < attempt + fuel → SentinelFree (world i)) →
      (transactLoop world bu fuel attempt).err = some ErrSerialization →
      ∀ i, attempt ≤ i → i < attempt + fuel → Retries (world i) := by
  intro fuel
  induction fuel with
  | zero => intro a _ _ i hi1 hi2; omega
  | succ fuel ih =>
    intro a hfree herr i hi1 hi2
    rcases hb : (world a).beginErr with _ | e
    · rcases hf : (world a).fnRes with fnErr | v
      · rcases hr : (world a).rollbackErr with _ | re
        · cases hs : IsSerializationError fnErr
          · rw [transactLoop_fnOther world bu fuel a hb hf hr hs] at herr
            have : fnErr = ErrSerialization := by
              simpa using herr
            exact absurd (hf.trans (by rw [this])) (hfree a le_rfl (by omega)).2.1
          · rcases Nat.lt_or_ge i (a + 1) with hia | hia
            · have : i = a := by omega
              subst this
              exact Or.inl ⟨hb, ⟨fnErr, hf, hs⟩, hr⟩
            · rw [transactLoop_fnConflict world bu fuel a hb hf hr hs] at herr
              exact ih (a + 1)
                (fun k hk1 hk2 => hfree k (by omega) (by omega))
                herr i hia (by omega)
        · rw [transactLoop_rollbackFail world bu fuel a hb hf hr] at herr
          have : re = ErrSerialization := by simpa using herr
          exact absurd (hr.trans (by rw [this])) (hfree a le_rfl (by omega)).2.2.1
      · rcases hc : (world a).commitErr with _ | ce
        · rw [transactLoop_commitOk world bu fuel a hb hf hc] at herr
          simp at herr
        · cases hs : IsSerializationError ce
          · rw [transactLoop_commitOther world bu fuel a hb hf hc hs] at herr
            have : ce = ErrSerialization := by simpa using herr
            exact absurd (hc.trans (by rw [this])) (hfree a le_rfl (by omega)).2.2.2
          · rcases Nat.lt_or_ge i (a + 1) with hia | hia
            · have : i = a := by omega
              subst this
              exact Or.inr ⟨hb, ⟨v, hf⟩, ce, hc, hs⟩
            · rw [transactLoop_commitConflict world bu fuel a hb hf hc hs] at herr
              exact ih (a + 1)
                (fun k hk1 hk2 => hfree k (by omega) (by omega))
                herr i hia (by omega)
    · rw [transactLoop_beginFail world bu fuel a hb] at herr
      have : e = ErrSerialization := by simpa using herr
      exact absurd (hb.trans (by rw [this])) (hfree a le_rfl (by omega)).1

lemma transact_const_ok {α : Type} (v : α) (bu N : Nat) (hN : 0 < N) :
    Transact (fun _ => (⟨none, Except.ok v, none, none⟩ : AttemptBehavior α)) bu N
      = ⟨[Event.beginOk, Event.commitEvt], some v, none⟩ := by
  obtain ⟨fuel, rfl⟩ : ∃ f, N = f + 1 := ⟨N - 1, by omega⟩
  rw [Transact,
    transactLoop_commitOk (fun _ => (⟨none, Except.ok v, none, none⟩ : AttemptBehavior α))
      bu fuel 0 rfl rfl rfl]
  simp

lemma transact_const_error_isSome {α : Type} (e : DBError) (bu : Nat) :
    ∀ fuel a,
      ∃ e', (transactLoop
          (fun _ => (⟨none, Except.error e, none, none⟩ : AttemptBehavior α))
          bu fuel a).err = some e' := by
  intro fuel
  induction fuel with
  | zero => intro a; exact ⟨ErrSerialization, rfl⟩
  | succ fuel ih =>
    intro a
    cases hs : IsSerializationError e
    · exact ⟨e, by
        rw [transactLoop_fnOther
          (fun _ => (⟨none, Except.error e, none, none⟩ : AttemptBehavior α))
          bu fuel a rfl rfl rfl hs]⟩
    · obtain ⟨e', he'⟩ := ih (a + 1)
      exact ⟨e', by
        rw [transactLoop_fnConflict
          (fun _ => (⟨none, Except.error e, none, none⟩ : AttemptBehavior α))
          bu fuel a rfl rfl rfl hs]
        exact he'⟩

lemma getVersion_ok (s : String) (bu N : Nat) (hN : 0 < N) :
    getVersion (Except.ok s) bu N = Except.ok s := by
  rw [getVersion, transact_const_ok s bu N hN]
  rfl

lemma getVersion_error (e : DBError) (bu N : Nat) :
    ∃ e', getVersion (Except.error e) bu N = Except.error e' := by
  obtain ⟨e', he'⟩ := transact_const_error_isSome (α := String) e bu N 0
  exact ⟨e', by rw [getVersion, Transact, he']⟩

lemma getAuroraVersion_ok (s : String) (bu N : Nat) (hN : 0 < N) :
    getAuroraVersion (Except.ok s) bu N = Except.ok s := by
  rw [getAuroraVersion, transact_const_ok s bu N hN]
  rfl

lemma getAuroraVersion_error (e : DBError) (bu N : Nat) :
    ∃ e', getAuroraVersion (Except.error e) bu N = Except.error e' := by
  obtain ⟨e', he'⟩ := transact_const_error_isSome (α := String) e bu N 0
  exact ⟨e', by rw [getAuroraVersion, Transact, he']⟩

lemma mapGet_mapInsert_self (m : List (String × String)) (k v : String) :
    mapGet (mapInsert m k v) k = some v := by
  induction m with
  | nil => simp [mapInsert, mapGet]
  | cons p rest ih =>
    by_cases h : p.1 = k
    · simp [mapInsert, mapGet, h]
    · simp [mapInsert, mapGet, h, ih]

lemma mapGet_mapInsert_ne (m : List (String × String)) (k' k v : String)
    (h : k' ≠ k) :
    mapGet (mapInsert m k' v) k = mapGet m k := by
  induction m with
  | nil => simp [mapInsert, mapGet, h]
  | cons p rest ih =>
    by_cases hp : p.1 = k'
    · simp [mapInsert, mapGet, hp, h]
    · simp only [mapInsert, hp, if_false, mapGet, ih]

lemma data_append (s t : String) : (s ++ t).data = s.data ++ t.data := by
  cases s; cases t; rfl

lemma settingKey_ne_versionKey (x : String) :
    ("postgresql_setting_" ++ x) ≠ ("postgresql_version") := by
  intro h
  have hd := congrArg String.data h
  rw [data_append] at hd
  have hl := congrArg List.length hd
  simp at hl

lemma settingKey_ne_auroraKey (x : String) :
    ("postgresql_setting_" ++ x) ≠ ("postgresql_aurora_version") := by
  intro h
  have hd := congrArg String.data h
  rw [data_append] at hd
  have h19 := congrArg (List.take 19) hd
  rw [List.take_left' (by decide)] at h19
  exact absurd h19 (by decide)

lemma mapGet_foldl_prefixed_ne (l : List (String × String))
    (base : List (String × String)) (key : String)
    (hkey : ∀ x, ("postgresql_setting_" ++ x) ≠ key) :
    mapGet
        (l.foldl (fun md p => mapInsert md (("postgresql_setting_") ++ p.1) p.2)
          base) key
      = mapGet base key := by
  induction l generalizing base with
  | nil => rfl
  | cons p rest ih =>
    rw [List.foldl_cons, ih, mapGet_mapInsert_ne _ _ _ _ (hkey p.1)]

lemma metadata_eq (qv qa : Except DBError String)
    (qs : Except DBError (List PgSetting)) (bu N : Nat) (hN : 0 < N) :
    Metadata qv qa qs bu N
      = ((match qs with
          | Except.error _ =>
            ((match qv with
              | Except.ok s => [(("postgresql_version"), s)]
              | Except.error _ => [])
              ++ (match qa with
                | Except.ok s => [(("postgresql_aurora_version"), s)]
                | Except.error _ => []))
          | Except.ok pgs =>
            (processPgSettings pgs).foldl
              (fun md p => mapInsert md (("postgresql_setting_") ++ p.1) p.2)
              ((match qv with
                | Except.ok s => [(("postgresql_version"), s)]
                | Except.error _ => [])
                ++ (match qa with
                  | Except.ok s => [(("postgresql_aurora_version"), s)]
                  | Except.error _ => []))),
        none) := by
  rcases qv with ev | sv <;> rcases qa with ea | sa <;> rcases qs with es | pgs
  · obtain ⟨e₁, h₁⟩ := getVersion_error ev bu N
    obtain ⟨e₂, h₂⟩ := getAuroraVersion_error ea bu N
    obtain ⟨e₃, h₃⟩ :=
      transact_const_error_isSome (α := List (String × String)) es bu N 0
    simp [Metadata, h₁, h₂, Except.map, Transact, h₃, mapInsert]
  · obtain ⟨e₁, h₁⟩ := getVersion_error ev bu N
    obtain ⟨e₂, h₂⟩ := getAuroraVersion_error ea bu N
    have h₃ := transact_const_ok (processPgSettings pgs) bu N hN
    simp [Metadata, h₁, h₂, Except.map, h₃, mapInsert]
  · obtain ⟨e₁, h₁⟩ := getVersion_error ev bu N
    have h₂ := getAuroraVersion_ok sa bu N hN
    obtain ⟨e₃, h₃⟩ :=
      transact_const_error_isSome (α := List (String × String)) es bu N 0
    simp [Metadata, h₁, h₂, Except.map, Transact, h₃, mapInsert]
  · obtain ⟨e₁, h₁⟩ := getVersion_error ev bu N
    have h₂ := getAuroraVersion_ok sa bu N hN
    have h₃ := transact_const_ok (processPgSettings pgs) bu N hN
    simp [Metadata, h₁, h₂, Except.map, h₃, mapInsert]
  · have h₁ := getVersion_ok sv bu N hN
    obtain ⟨e₂, h₂⟩ := getAuroraVersion_error ea bu N
    obtain ⟨e₃, h₃⟩ :=
      transact_const_error_isSome (α := List (String × String)) es bu N 0
    simp [Metadata, h₁, h₂, Except.map, Transact, h₃, mapInsert]
  · have h₁ := getVersion_ok sv bu N hN
    obtain ⟨e₂, h₂⟩ := getAuroraVersion_error ea bu N
    have h₃ := transact_const_ok (processPgSettings pgs) bu N hN
    simp [Metadata, h₁, h₂, Except.map, h₃, mapInsert]
  · have h₁ := getVersion_ok sv bu N hN
    have h₂ := getAuroraVersion_ok sa bu N hN
    obtain ⟨e₃, h₃⟩ :=
      transact_const_error_isSome (α := List (String × String)) es bu N 0
    simp [Metadata, h₁, h₂, Except.map, Transact, h₃, mapInsert]
  · have h₁ := getVersion_ok sv bu N hN
    have h₂ := getAuroraVersion_ok sa bu N hN
    have h₃ := transact_const_ok (processPgSettings pgs) bu N hN
    simp [Metadata, h₁, h₂, Except.map, h₃, mapInsert]

/-- Claim C1: for maxAttempts = N ≥ 1, if `fn` fails on every attempt with a
classified serialization conflict and every begin and rollback succeeds, then
`Transact` performs exactly N begin/rollback cycles (no commit, no failed
begin) and returns the `ErrSerialization` sentinel with a nil result. -/
theorem transact_all_conflicts_exhausts {α : Type} (world : World α)
    (backoffUnit N : Nat) (hN : 1 ≤ N)
    (hw : ∀ i, i < N → ConflictRetry (world i)) :
    countE (Transact world backoffUnit N).trace Event.beginOk = N
      ∧ countE (Transact world backoffUnit N).trace Event.rollbackEvt = N
      ∧ countE (Transact world backoffUnit N).trace Event.commitEvt = 0
      ∧ countE (Transact world backoffUnit N).trace Event.beginFail = 0
      ∧ (Transact world backoffUnit N).ret = none
      ∧ (Transact world backoffUnit N).err = some ErrSerialization := by
  obtain ⟨t, ht, h1, h2, h3, h4⟩ :=
    transactLoop_skip_conflict world backoffUnit N N 0 le_rfl
      (fun i hi1 hi2 => hw i (by omega))
  have hz : N - N = 0 := by omega
  rw [hz, transactLoop_zero] at ht
  simp only [List.append_nil] at ht
  rw [Transact, ht]
  exact ⟨h1, h3, h4, h2, rfl, rfl⟩

theorem transact_all_conflicts_exhausts_witness :
    countE (Transact conflictWorld 10 3).trace Event.beginOk = 3
      ∧ countE (Transact conflictWorld 10 3).trace Event.rollbackEvt = 3
      ∧ countE (Transact conflictWorld 10 3).trace Event.commitEvt = 0
      ∧ countE (Transact conflictWorld 10 3).trace Event.beginFail = 0
      ∧ (Transact conflictWorld 10 3).ret = none
      ∧ (Transact conflictWorld 10 3).err = some ErrSerialization :=
  transact_all_conflicts_exhausts conflictWorld 10 3 (by omega)
    (fun i hi => ⟨rfl, ⟨DBError.conflict 0, rfl, rfl⟩, rfl⟩)

/-- Claim C2: if `fn` fails with classified conflicts on attempts 1..k−1 and
succeeds on attempt k ≤ N (begin, rollback and commit all succeeding), then
`Transact` returns the k-th value of `fn` with a nil error, one commit and
k−1 rollbacks. -/
theorem transact_succeeds_attempt_k {α : Type} (world : World α)
    (backoffUnit N k : Nat) (v : α) (hk1 : 1 ≤ k) (hkN : k ≤ N)
    (hw : ∀ i, i < k - 1 → ConflictRetry (world i))
    (hb : (world (k - 1)).beginErr = none)
    (hf : (world (k - 1)).fnRes = Except.ok v)
    (hc : (world (k - 1)).commitErr = none) :
    (Transact world backoffUnit N).ret = some v
      ∧ (Transact world backoffUnit N).err = none
      ∧ countE (Transact world backoffUnit N).trace Event.commitEvt = 1
      ∧ countE (Transact world backoffUnit N).trace Event.rollbackEvt = k - 1
      ∧ countE (Transact world backoffUnit N).trace Event.beginOk = k := by
  obtain ⟨t, ht, h1, h2, h3, h4⟩ :=
    transactLoop_skip_conflict world backoffUnit (k - 1) N 0 (by omega)
      (fun i hi1 hi2 => hw i (by omega))
  obtain ⟨m, hm⟩ : ∃ m, N - (k - 1) = m + 1 := ⟨N - k, by omega⟩
  rw [hm, Nat.zero_add] at ht
  rw [transactLoop_commitOk world backoffUnit m (k - 1) hb hf hc] at ht
  rw [Transact, ht]
  refine ⟨rfl, rfl, ?_, ?_, ?_⟩
  · simp [countE, h4]
  · simp [countE, h3]
  · simp [countE, h1]; omega

theorem transact_succeeds_attempt_k_witness :
    (Transact succeedAt3World 10 3).ret = some 42
      ∧ (Transact succeedAt3World 10 3).err = none
      ∧ countE (Transact succeedAt3World 10 3).trace Event.commitEvt = 1
      ∧ countE (Transact succeedAt3World 10 3).trace Event.rollbackEvt = 2
      ∧ countE (Transact succeedAt3World 10 3).trace Event.beginOk = 3 :=
  transact_succeeds_attempt_k succeedAt3World 10 3 3 42 (by omega) (by omega)
    (fun i hi => by
      refine ⟨?_, ⟨DBError.conflict 0, ?_, rfl⟩, ?_⟩ <;>
        simp [succeedAt3World, hi])
    rfl rfl rfl

/-- Claim C3: on any attempt where `fn` fails, if the rollback also fails the
loop terminates at once and `Transact` returns the rollback error (not the
error of `fn`), whatever the remaining budget and whatever the classification
of the error of `fn`. -/
theorem transact_rollback_failure_terminal {α : Type} (world : World α)
    (backoffUnit N j : Nat) (fnErr re : DBError) (hj : j < N)
    (hw : ∀ i, i < j → Retries (world i))
    (hb : (world j).beginErr = none)
    (hf : (world j).fnRes = Except.error fnErr)
    (hr : (world j).rollbackErr = some re) :
    (Transact world backoffUnit N).err = some re
      ∧ (Transact world backoffUnit N).ret = none
      ∧ countE (Transact world backoffUnit N).trace Event.beginOk
          + countE (Transact world backoffUnit N).trace Event.beginFail
          = j + 1 := by
  obtain ⟨t, ht, h1, h2, h3⟩ :=
    transactLoop_skip world backoffUnit j N 0 (by omega)
      (fun i hi1 hi2 => hw i (by omega))
  obtain ⟨m, hm⟩ : ∃ m, N - j = m + 1 := ⟨N - j - 1, by omega⟩
  rw [hm, Nat.zero_add] at ht
  rw [transactLoop_rollbackFail world backoffUnit m j hb hf hr] at ht
  rw [Transact, ht]
  refine ⟨rfl, rfl, ?_⟩
  simp [countE, h1, h2]

theorem transact_rollback_failure_terminal_witness :
    (Transact rollbackFailWorld 10 3).err = some (DBError.other 9)
      ∧ (Transact rollbackFailWorld 10 3).ret = none
      ∧ countE (Transact rollbackFailWorld 10 3).trace Event.beginOk
          + countE (Transact rollbackFailWorld 10 3).trace Event.beginFail
          = 2 :=
  transact_rollback_failure_terminal rollbackFailWorld 10 3 1
    (DBError.other 5) (DBError.other 9) (by omega)
    (fun i hi => Or.inl (by
      refine ⟨?_, ⟨DBError.conflict 0, ?_, rfl⟩, ?_⟩ <;>
        simp [rollbackFailWorld, hi]))
    rfl rfl rfl

/-- Claim C4: only classified serialization conflicts are retried; a begin
failure, a non-conflict `fn` error (with successful rollback) and a
non-conflict commit error are each returned to the caller as the very same
error value, with no further attempt. -/
theorem transact_nonconflict_passthrough {α : Type} (world : World α)
    (backoffUnit N j : Nat) (hj : j < N)
    (hw : ∀ i, i < j → Retries (world i)) :
    (∀ be, (world j).beginErr = some be →
        (Transact world backoffUnit N).err = some be
          ∧ (Transact world backoffUnit N).ret = none
          ∧ countE (Transact world backoffUnit N).trace Event.beginOk
              + countE (Transact world backoffUnit N).trace Event.beginFail
              = j + 1)
      ∧ (∀ fe, (world j).beginErr = none → (world j).fnRes = Except.error fe →
          (world j).rollbackErr = none → IsSerializationError fe = false →
          (Transact world backoffUnit N).err = some fe
            ∧ (Transact world backoffUnit N).ret = none
            ∧ countE (Transact world backoffUnit N).trace Event.beginOk
                + countE (Transact world backoffUnit N).trace Event.beginFail
                = j + 1)
      ∧ (∀ (v : α) ce, (world j).beginErr = none →
          (world j).fnRes = Except.ok v →
          (world j).commitErr = some ce → IsSerializationError ce = false →
          (Transact world backoffUnit N).err = some ce
            ∧ (Transact world backoffUnit N).ret = none
            ∧ countE (Transact world backoffUnit N).trace Event.beginOk
                + countE (Transact world backoffUnit N).trace Event.beginFail
                = j + 1) := by
  obtain ⟨t, ht, h1, h2, h3⟩ :=
    transactLoop_skip world backoffUnit j N 0 (by omega)
      (fun i hi1 hi2 => hw i (by omega))
  obtain ⟨m, hm⟩ : ∃ m, N - j = m + 1 := ⟨N - j - 1, by omega⟩
  rw [hm, Nat.zero_add] at ht
  refine ⟨?_, ?_, ?_⟩
  · intro be hbe
    have ht' := ht
    rw [transactLoop_beginFail world backoffUnit m j hbe] at ht'
    rw [Transact, ht']
    refine ⟨rfl, rfl, ?_⟩
    simp [countE, h1, h2]
  · intro fe hb hf hr hs
    have ht' := ht
    rw [transactLoop_fnOther world backoffUnit m j hb hf hr hs] at ht'
    rw [Transact, ht']
    refine ⟨rfl, rfl, ?_⟩
    simp [countE, h1, h2]
  · intro v ce hb hf hc hs
    have ht' := ht
    rw [transactLoop_commitOther world backoffUnit m j hb hf hc hs] at ht'
    rw [Transact, ht']
    refine ⟨rfl, rfl, ?_⟩
    simp [countE, h1, h2]

theorem transact_nonconflict_passthrough_witness :
    ((Transact beginFailWorld 10 3).err = some (DBError.other 3)
        ∧ (Transact beginFailWorld 10 3).ret = none)
      ∧ ((Transact fnOtherWorld 10 3).err = some (DBError.other 7)
        ∧ (Transact fnOtherWorld 10 3).ret = none)
      ∧ ((Transact commitOtherWorld 10 3).err = some (DBError.other 8)
        ∧ (Transact commitOtherWorld 10 3).ret = none) := by
  refine ⟨?_, ?_, ?_⟩
  · have h := (transact_nonconflict_passthrough beginFailWorld 10 3 0
      (by omega) (fun i hi => absurd hi (by omega))).1
      (DBError.other 3) rfl
    exact ⟨h.1, h.2.1⟩
  · have h := (transact_nonconflict_passthrough fnOtherWorld 10 3 0
      (by omega) (fun i hi => absurd hi (by omega))).2.1
      (DBError.other 7) rfl rfl rfl rfl
    exact ⟨h.1, h.2.1⟩
  · have h := (transact_nonconflict_passthrough commitOtherWorld 10 3 0
      (by omega) (fun i hi => absurd hi (by omega))).2.2
      1 (DBError.other 8) rfl rfl rfl rfl
    exact ⟨h.1, h.2.1⟩

/-- Claim C5 (counterexample): `Transact` can return the `ErrSerialization`
value without exhausting its budget: if `fn` itself fails with that value
(an error the classifier does not recognise), the error is passed through
after a single attempt, here with a budget of 3. -/
theorem transact_sentinel_without_exhaustion :
    (Transact sentinelWorld 10 3).err = some ErrSerialization
      ∧ countE (Transact sentinelWorld 10 3).trace Event.beginOk = 1
      ∧ ¬(countE (Transact sentinelWorld 10 3).trace Event.beginOk = 3)
      ∧ IsSerializationError ErrSerialization = false := by
  decide

/-- Claim C5 (amended): provided neither `fn` nor begin/rollback/commit ever
fail with the `ErrSerialization` value itself, `Transact` returns that
sentinel only when the whole budget is exhausted: every one of the N attempts
ended in a classified conflict retry. -/
theorem transact_sentinel_only_when_exhausted {α : Type} (world : World α)
    (backoffUnit N : Nat)
    (hfree : ∀ i, i < N → SentinelFree (world i))
    (herr : (Transact world backoffUnit N).err = some ErrSerialization) :
    (∀ i, i < N → Retries (world i))
      ∧ countE (Transact world backoffUnit N).trace Event.beginOk = N := by
  have hret :=
    transactLoop_sentinel_retries world backoffUnit N 0
      (fun i h1 h2 => hfree i (by omega)) herr
  have hr : ∀ i, i < N → Retries (world i) :=
    fun i hi => hret i (by omega) (by omega)
  refine ⟨hr, ?_⟩
  obtain ⟨t, ht, h1, h2, h3⟩ :=
    transactLoop_skip world backoffUnit N N 0 le_rfl
      (fun i hi1 hi2 => hr i (by omega))
  have hz : N - N = 0 := by omega
  rw [hz, transactLoop_zero] at ht
  simp only [List.append_nil] at ht
  rw [Transact, ht]
  exact h1

theorem transact_sentinel_only_when_exhausted_witness :
    (∀ i, i < 2 → Retries (conflictWorld i))
      ∧ countE (Transact conflictWorld 10 2).trace Event.beginOk = 2 :=
  transact_sentinel_only_when_exhausted conflictWorld 10 2
    (fun i hi => ⟨by simp [conflictWorld, ErrSerialization],
      by simp [conflictWorld, ErrSerialization],
      by simp [conflictWorld, ErrSerialization],
      by simp [conflictWorld, ErrSerialization]⟩)
    (by decide)

/-- Claim C6: the sleeps of a `Transact` run are, in order, exactly
`backoffUnit * 1, ..., backoffUnit * (A-1)` where A is the number of attempts
started, so the delay before attempt i (for i ≥ 1) is `backoffUnit * i`; the
first attempt starts with no delay (the trace begins with a begin event). -/
theorem transact_backoff_linear {α : Type} (world : World α)
    (backoffUnit N : Nat) :
    sleepsOf (Transact world backoffUnit N).trace
        = (List.range' 1
            (countE (Transact world backoffUnit N).trace Event.beginOk
              + countE (Transact world backoffUnit N).trace Event.beginFail
              - 1)).map (fun i => backoffUnit * i)
      ∧ (0 < N →
          (Transact world backoffUnit N).trace.head? = some Event.beginOk
            ∨ (Transact world backoffUnit N).trace.head? = some Event.beginFail) :=
  ⟨transact_sleeps_eq world backoffUnit N, transact_head_begin world backoffUnit N⟩

theorem transact_backoff_linear_witness :
    sleepsOf (Transact conflictWorld 7 3).trace = [7, 14]
      ∧ (Transact conflictWorld 7 3).trace.head? = some Event.beginOk := by
  have h := transact_backoff_linear conflictWorld 7 3
  refine ⟨h.1.trans (by decide), (h.2 (by omega)).resolve_right (by decide)⟩

/-- Claim C7: every `Transact` call returns exactly one of success-with-commit
(a value, no error, the last event a commit) or a terminal error (no value,
some error); the number of attempts started never exceeds maxAttempts; and
every successfully begun transaction is terminated by exactly one
rollback-or-commit call. -/
theorem transact_invariants {α : Type} (world : World α)
    (backoffUnit N : Nat) :
    (((∃ v, (Transact world backoffUnit N).ret = some v)
        ∧ (Transact world backoffUnit N).err = none
        ∧ (Transact world backoffUnit N).trace.getLast? = some Event.commitEvt)
      ∨ ((Transact world backoffUnit N).ret = none
        ∧ ∃ e, (Transact world backoffUnit N).err = some e))
    ∧ countE (Transact world backoffUnit N).trace Event.beginOk
        + countE (Transact world backoffUnit N).trace Event.beginFail ≤ N
    ∧ countE (Transact world backoffUnit N).trace Event.beginOk
        = countE (Transact world backoffUnit N).trace Event.rollbackEvt
          + countE (Transact world backoffUnit N).trace Event.commitEvt :=
  ⟨transactLoop_dichotomy world backoffUnit N 0,
    transactLoop_attempts_le world backoffUnit N 0,
    transactLoop_terminators world backoffUnit N 0⟩

/-- Claim C8: `WithContext ctx` yields a facade with the same pool handle
whose observable query context is `ctx` and whose logger is derived from the
default logger for `ctx`; the transaction options of the derived facade carry
`ctx` too; and the derived facade is entirely determined by the pool handle
and `ctx` alone — it shares no option state with the original facade. -/
theorem withContext_fresh_facade (d : SqlxDatabase) (c : Ctx) :
    (WithContext d c).db = d.db
      ∧ getContext (WithContext d c) = c
      ∧ getLogger (WithContext d c) = Logger.withContext Logger.default c
      ∧ (getTxOptions (WithContext d c)).ctx = c
      ∧ (getTxOptions (WithContext d c)).logger
          = Logger.withContext Logger.default c
      ∧ (∀ d₂ : SqlxDatabase, d₂.db = d.db → WithContext d₂ c = WithContext d c) := by
  refine ⟨rfl, rfl, rfl, rfl, rfl, ?_⟩
  intro d₂ h
  simp [WithContext, h]

theorem withContext_fresh_facade_witness :
    getContext (WithContext (NewSqlxDatabase 0) (Ctx.token 5)) = Ctx.token 5
      ∧ getLogger (WithContext (NewSqlxDatabase 0) (Ctx.token 5))
          = Logger.withContext Logger.default (Ctx.token 5)
      ∧ WithContext ⟨0, some ⟨Logger.dummy, Ctx.token 9⟩⟩ (Ctx.token 5)
          = WithContext (NewSqlxDatabase 0) (Ctx.token 5) := by
  have h := withContext_fresh_facade (NewSqlxDatabase 0) (Ctx.token 5)
  exact ⟨h.2.1, h.2.2.1, h.2.2.2.2.2 ⟨0, some ⟨Logger.dummy, Ctx.token 9⟩⟩ rfl⟩

/-- Claim C9: `Metadata` merges its sub-query results into one map and
tolerates failure of any sub-query: the error component is always nil; a
failed version / aurora-version sub-query leaves its key out of the map while
a successful one contributes it; and when the settings query fails the map
holds exactly the entries gathered so far. -/
theorem metadata_tolerates_partial_failure (qv qa : Except DBError String)
    (qs : Except DBError (List PgSetting)) (backoffUnit N : Nat) (hN : 0 < N) :
    (Metadata qv qa qs backoffUnit N).2 = none
      ∧ (∀ e, qv = Except.error e →
          mapGet (Metadata qv qa qs backoffUnit N).1 ("postgresql_version") = none)
      ∧ (∀ s, qv = Except.ok s →
          mapGet (Metadata qv qa qs backoffUnit N).1 ("postgresql_version") = some s)
      ∧ (∀ e, qa = Except.error e →
          mapGet (Metadata qv qa qs backoffUnit N).1 ("postgresql_aurora_version")
            = none)
      ∧ (∀ s, qa = Except.ok s →
          mapGet (Metadata qv qa qs backoffUnit N).1 ("postgresql_aurora_version")
            = some s)
      ∧ (∀ e, qs = Except.error e →
          (Metadata qv qa qs backoffUnit N).1
            = (match qv with
               | Except.ok s => [(("postgresql_version"), s)]
               | Except.error _ => [])
              ++ (match qa with
                | Except.ok s => [(("postgresql_aurora_version"), s)]
                | Except.error _ => [])) := by
  rw [metadata_eq qv qa qs backoffUnit N hN]
  refine ⟨?_, ?_, ?_, ?_, ?_, ?_⟩
  · rcases qs with es | pgs <;> rfl
  · rintro e rfl
    rcases qs with es | pgs
    · rcases qa with ea | sa <;> simp [mapGet]
    · refine (mapGet_foldl_prefixed_ne (processPgSettings pgs) _ _
        settingKey_ne_versionKey).trans ?_
      rcases qa with ea | sa <;> simp [mapGet]
  · rintro s rfl
    rcases qs with es | pgs
    · rcases qa with ea | sa <;> simp [mapGet]
    · refine (mapGet_foldl_prefixed_ne (processPgSettings pgs) _ _
        settingKey_ne_versionKey).trans ?_
      rcases qa with ea | sa <;> simp [mapGet]
  · rintro e rfl
    rcases qs with es | pgs
    · rcases qv with ev | sv <;> simp [mapGet]
    · refine (mapGet_foldl_prefixed_ne (processPgSettings pgs) _ _
        settingKey_ne_auroraKey).trans ?_
      rcases qv with ev | sv <;> simp [mapGet]
  · rintro s rfl
    rcases qs with es | pgs
    · rcases qv with ev | sv <;> simp [mapGet]
    · refine (mapGet_foldl_prefixed_ne (processPgSettings pgs) _ _
        settingKey_ne_auroraKey).trans ?_
      rcases qv with ev | sv <;> simp [mapGet]
  · rintro e rfl
    rfl

theorem metadata_tolerates_partial_failure_witness :
    ((Metadata (Except.error (DBError.other 1)) (Except.ok ("a1"))
        (Except.ok [⟨"work_mem", "4MB"⟩]) 0 1).2 = none
      ∧ mapGet (Metadata (Except.error (DBError.other 1)) (Except.ok ("a1"))
          (Except.ok [⟨"work_mem", "4MB"⟩]) 0 1).1 ("postgresql_version") = none
      ∧ mapGet (Metadata (Except.error (DBError.other 1)) (Except.ok ("a1"))
          (Except.ok [⟨"work_mem", "4MB"⟩]) 0 1).1 ("postgresql_aurora_version")
          = some ("a1"))
      ∧ (Metadata (Except.ok ("v1")) (Except.error (DBError.other 2))
          (Except.error (DBError.other 3)) 0 1).1
          = [(("postgresql_version"), "v1")] := by
  constructor
  · have h := metadata_tolerates_partial_failure (Except.error (DBError.other 1))
      (Except.ok ("a1")) (Except.ok [⟨"work_mem", "4MB"⟩]) 0 1 (by omega)
    exact ⟨h.1, h.2.1 (DBError.other 1) rfl, h.2.2.2.2.1 ("a1") rfl⟩
  · have h := metadata_tolerates_partial_failure (Except.ok ("v1"))
      (Except.error (DBError.other 2)) (Except.error (DBError.other 3)) 0 1
      (by omega)
    exact (h.2.2.2.2.2 (DBError.other 3) rfl).trans rfl

/-- Claim C10: whenever `Transact` returns a non-nil error the accompanying
result is nil; a caller never sees a partial or stale `fn` result together
with an error. -/
theorem transact_error_implies_nil_result {α : Type} (world : World α)
    (backoffUnit N : Nat) (e : DBError)
    (h : (Transact world backoffUnit N).err = some e) :
    (Transact world backoffUnit N).ret = none := by
  rcases transactLoop_dichotomy world backoffUnit N 0 with ⟨_, he, _⟩ | ⟨hr, _⟩
  · rw [Transact] at h
    rw [he] at h
    cases h
  · exact hr

theorem transact_error_implies_nil_result_witness :
    (Transact fnOtherWorld 10 1).ret = none :=
  transact_error_implies_nil_result fnOtherWorld 10 1 (DBError.other 7)
    (by decide)

end Db
